import Mathlib

/-!
Shallow embedding of the decay-action discovery component and of the
Clebsch-Gordan coefficient lookup of the SMASH transport code
(`src/decayactionsfinder.cc`, `src/include/smash/clebschgordan_lookup.h`),
together with theorems settling the specification claims about them.

Real-valued quantities (`double` in the source) are modelled as exact
rationals; machine `int` is modelled as `ℤ` (no overflow occurs on the
domains the claims quantify over).  The process-wide random source is
modelled as an explicit oracle `stream : ℕ → ℚ` of unit-exponential draws,
threaded through the finder by a draw counter, so that
`Random::exponential(rate)` becomes `stream k / rate`.
-/

namespace Smash

/-- A decay channel: an identifier together with its branch weight
(partial width). -/
structure DecayBranch where
  channel : ℕ
  weight : ℚ
deriving DecidableEq

/-- Modelled from the spec: `total_weight<DecayBranch>(processes)` (the
template helper is not part of the supplied sources) sums the branch
weights, giving the total decay width of a channel list. -/
def total_weight (processes : List DecayBranch) : ℚ :=
  (processes.map DecayBranch.weight).sum

/-- The external particle-type catalog interface consumed by the finder:
stability flag and the two width queries (hadronic-only and full channel
lists as functions of the effective mass). -/
structure ParticleType where
  is_stable : Bool
  get_partial_widths_hadronic : ℚ → List DecayBranch
  get_partial_widths : ℚ → List DecayBranch

/-- The per-particle data read by the finder: type reference, effective
mass, formation time, time component of the four-position, and inverse
Lorentz dilation factor. -/
structure Particle where
  type : ParticleType
  effective_mass : ℚ
  formation_time : ℚ
  position_x0 : ℚ
  inverse_gamma : ℚ

/-- A decay action: the source particle, the decay time handed to the
`DecayAction` constructor, and the channel list added via `add_decays`. -/
structure DecayAction where
  particle : Particle
  time_of_execution : ℚ
  decays : List DecayBranch

/-- Modelled from the spec: the natural-units conversion constant `hbarc`
from `constants.h` (not among the supplied sources), 0.197327053 GeV·fm. -/
def hbarc : ℚ := 197327053 / 1000000000

/-- The constant `1. / hbarc` computed in `find_actions_in_cell`. -/
def one_over_hbarc : ℚ := 1 / hbarc

/-- `DecayActionsFinder::find_actions_in_cell`: one forward pass over the
particle list.  Stable particles are skipped; for unstable ones the
hadronic channel list and its summed width at the current effective mass
are obtained; a non-positive width skips the particle; otherwise a decay
time is sampled from the exponential law with rate
`one_over_hbarc * inverse_gamma * width` (the oracle entry `stream k` is
the unit-exponential draw, so the sampled time is `stream k / rate`), and
an action is appended exactly when `decay_time < dt` and
`formation_time < position.x0() + decay_time`.  The draw counter `k`
advances only when a draw actually happens. -/
def find_actions_in_cell (stream : ℕ → ℚ) (dt : ℚ) :
    List Particle → ℕ → List DecayAction
  | [], _ => []
  | p :: ps, k =>
    if p.type.is_stable then
      find_actions_in_cell stream dt ps k
    else
      let processes := p.type.get_partial_widths_hadronic p.effective_mass
      let width := total_weight processes
      if 0 < width then
        let decay_time := stream k / (one_over_hbarc * p.inverse_gamma * width)
        if decay_time < dt ∧ p.formation_time < p.position_x0 + decay_time then
          ⟨p, decay_time, processes⟩ :: find_actions_in_cell stream dt ps (k + 1)
        else
          find_actions_in_cell stream dt ps (k + 1)
      else
        find_actions_in_cell stream dt ps k

/-- `DecayActionsFinder::find_final_actions`: for every unstable particle,
unconditionally build an action with decay time `0` carrying the full
(not hadronic-only) channel list at the current effective mass.  The
`only_res` flag is accepted but never read (it is an anonymous parameter
in the source). -/
def find_final_actions : List Particle → Bool → List DecayAction
  | [], _ => []
  | p :: ps, only_res =>
    if p.type.is_stable then
      find_final_actions ps only_res
    else
      ⟨p, 0, p.type.get_partial_widths p.effective_mass⟩ ::
        find_final_actions ps only_res


/-- The hadronic channel list fetched for a particle in the per-step
discovery loop. -/
def hadronic_processes (p : Particle) : List DecayBranch :=
  p.type.get_partial_widths_hadronic p.effective_mass

/-- The summed hadronic partial width of a particle at its effective
mass. -/
def hadronic_width (p : Particle) : ℚ :=
  total_weight (hadronic_processes p)

/-- The decay time sampled for particle `p` from draw `k` of the oracle:
the unit-exponential draw divided by the exponential rate
`one_over_hbarc * inverse_gamma * width`. -/
def sampled_decay_time (stream : ℕ → ℚ) (k : ℕ) (p : Particle) : ℚ :=
  stream k / (one_over_hbarc * p.inverse_gamma * hadronic_width p)

/-- `ClebschGordan::ThreeSpins`: six doubled angular-momentum quantum
numbers used as the key of the coefficient lookup table.  Equality is
exact integer equality over all six fields. -/
structure ThreeSpins where
  j1 : ℤ
  j2 : ℤ
  j3 : ℤ
  m1 : ℤ
  m2 : ℤ
  m3 : ℤ
deriving DecidableEq

/-- `ClebschGordan::ThreeSpinHash::operator()`: the Rasch-inspired
combination of the six spins into a single integer.  `Int.tdiv` is the
truncating division of C++ `int` arithmetic. -/
def cgHash (t : ThreeSpins) : ℤ :=
  let S := -t.j1 + t.j2 + t.j3
  let L := t.j1 - t.j2 + t.j3
  let X := t.j1 - t.m1
  let B := t.j2 - t.m2
  let T := t.j3 + t.m3
  Int.tdiv (L * (24 + L * (50 + L * (35 + L * (10 + L))))) 120 +
    Int.tdiv (X * (6 + X * (11 + X * (6 + X)))) 24 +
    Int.tdiv (T * (2 + T * (3 + T))) 6 +
    Int.tdiv (B * (B + 1)) 2 + S + 1

/-- Modelled from the spec: a physically valid coupling triple of doubled
quantum numbers — z-components bounded by the respective spins and of
equal parity, z-components adding up (`m1 + m2 = m3`), and the triangle
inequalities among the three spins. -/
def valid (t : ThreeSpins) : Prop :=
  -t.j1 ≤ t.m1 ∧ t.m1 ≤ t.j1 ∧ -t.j2 ≤ t.m2 ∧ t.m2 ≤ t.j2 ∧
    -t.j3 ≤ t.m3 ∧ t.m3 ≤ t.j3 ∧
    (t.j1 - t.m1) % 2 = 0 ∧ (t.j2 - t.m2) % 2 = 0 ∧ (t.j3 - t.m3) % 2 = 0 ∧
    t.m1 + t.m2 = t.m3 ∧
    t.j1 - t.j2 ≤ t.j3 ∧ t.j2 - t.j1 ≤ t.j3 ∧ t.j3 ≤ t.j1 + t.j2

instance (t : ThreeSpins) : Decidable (valid t) := by
  unfold valid; infer_instance

/-- The Rasch canonical ordering `L ≥ X ≥ T ≥ B ≥ S` of the five
combinations computed inside `cgHash`; the Rasch bijection with the
consecutive integers is only valid on keys in this canonical order. -/
def rasch_ordered (t : ThreeSpins) : Prop :=
  t.j1 - t.m1 ≤ t.j1 - t.j2 + t.j3 ∧
    t.j3 + t.m3 ≤ t.j1 - t.m1 ∧
    t.j2 - t.m2 ≤ t.j3 + t.m3 ∧
    -t.j1 + t.j2 + t.j3 ≤ t.j2 - t.m2

instance (t : ThreeSpins) : Decidable (rasch_ordered t) := by
  unfold rasch_ordered; infer_instance

/-- The natural-number form of the Rasch index on the five ordered
combination values, expressed through binomial coefficients. -/
def natHash (L X T B S : ℕ) : ℕ :=
  Nat.choose (L + 4) 5 + Nat.choose (X + 3) 4 + Nat.choose (T + 2) 3 +
    Nat.choose (B + 1) 2 + S + 1

/-- An association-list table of coefficients, the model of the
`std::unordered_map` used by `ClebschGordan` (the hash only selects the
bucket in the source; the observable map behaviour is keyed lookup). -/
abbrev CGTable := List (ThreeSpins × ℚ)

/-- Keyed lookup in the coefficient table. -/
def tableLookup : CGTable → ThreeSpins → Option ℚ
  | [], _ => none
  | (k, v) :: rest, key => if key = k then some v else tableLookup rest key

/-- Modelled from the spec: `ClebschGordan::coefficient` (its body is in a
translation unit not among the supplied sources; the header documents it:
check the lookup table, return the stored value if present, otherwise
compute with `calculate_coefficient`, store and return).  The analytic
calculator is passed in as `calcCoeff`; the table is threaded explicitly. -/
def coefficient (calcCoeff : ThreeSpins → ℚ) (table : CGTable)
    (key : ThreeSpins) : ℚ × CGTable :=
  match tableLookup table key with
  | some v => (v, table)
  | none => (calcCoeff key, (key, calcCoeff key) :: table)

/-- `ClebschGordan::lookup_table`: the pre-populated tabulation of
coefficients bundled with the source, with the decimal literals read as
exact rationals. -/
def cg_table_0 : CGTable := [
    (⟨0, 0, 0, 0, 0, 0⟩, 1.00000000000000000),
    (⟨0, 1, 1, 0, -1, -1⟩, 1.00000000000000022),
    (⟨0, 1, 1, 0, 1, 1⟩, 1.00000000000000022),
    (⟨0, 2, 2, 0, -2, -2⟩, 0.99999999999999989),
    (⟨0, 2, 2, 0, 0, 0⟩, 0.99999999999999989),
    (⟨0, 2, 2, 0, 2, 2⟩, 0.99999999999999989),
    (⟨0, 3, 3, 0, -3, -3⟩, 1.00000000000000000),
    (⟨0, 3, 3, 0, -1, -1⟩, 0.99999999999999989),
    (⟨0, 3, 3, 0, 1, 1⟩, 0.99999999999999989),
    (⟨0, 3, 3, 0, 3, 3⟩, 1.00000000000000000),
    (⟨1, 0, 1, -1, 0, -1⟩, 1.00000000000000022),
    (⟨1, 0, 1, 1, 0, 1⟩, 1.00000000000000022),
    (⟨1, 1, 0, -1, 1, 0⟩, -0.70710678118654757),
    (⟨1, 1, 0, 1, -1, 0⟩, 0.70710678118654757),
    (⟨1, 1, 2, -1, -1, -2⟩, 0.99999999999999989),
    (⟨1, 1, 2, -1, 1, 0⟩, 0.70710678118654746),
    (⟨1, 1, 2, 1, -1, 0⟩, 0.70710678118654746),
    (⟨1, 1, 2, 1, 1, 2⟩, 0.99999999999999989),
    (⟨1, 2, 1, -1, 0, -1⟩, -0.57735026918962584),
    (⟨1, 2, 1, -1, 2, 1⟩, -0.81649658092772615),
    (⟨1, 2, 1, 1, -2, -1⟩, 0.81649658092772615),
    (⟨1, 2, 1, 1, 0, 1⟩, 0.57735026918962584),
    (⟨1, 2, 3, -1, -2, -3⟩, 1.00000000000000000),
    (⟨1, 2, 3, -1, 0, -1⟩, 0.81649658092772615),
    (⟨1, 2, 3, -1, 2, 1⟩, 0.57735026918962584),
    (⟨1, 2, 3, 1, -2, -1⟩, 0.57735026918962584),
    (⟨1, 2, 3, 1, 0, 1⟩, 0.81649658092772615)]

def cg_table_1 : CGTable := [
    (⟨1, 2, 3, 1, 2, 3⟩, 1.00000000000000000),
    (⟨1, 3, 2, -1, -1, -2⟩, -0.49999999999999983),
    (⟨1, 3, 2, -1, 1, 0⟩, -0.70710678118654724),
    (⟨1, 3, 2, -1, 3, 2⟩, -0.86602540378443837),
    (⟨1, 3, 2, 1, -3, -2⟩, 0.86602540378443837),
    (⟨1, 3, 2, 1, -1, 0⟩, 0.70710678118654724),
    (⟨1, 3, 2, 1, 1, 2⟩, 0.49999999999999983),
    (⟨1, 3, 4, -1, -3, -4⟩, 1.00000000000000022),
    (⟨1, 3, 4, -1, -1, -2⟩, 0.86602540378443871),
    (⟨1, 3, 4, -1, 1, 0⟩, 0.70710678118654746),
    (⟨1, 3, 4, -1, 3, 2⟩, 0.49999999999999994),
    (⟨1, 3, 4, 1, -3, -2⟩, 0.49999999999999994),
    (⟨1, 3, 4, 1, -1, 0⟩, 0.70710678118654746),
    (⟨1, 3, 4, 1, 1, 2⟩, 0.86602540378443871),
    (⟨1, 3, 4, 1, 3, 4⟩, 1.00000000000000022),
    (⟨2, 0, 2, -2, 0, -2⟩, 0.99999999999999989),
    (⟨2, 0, 2, 0, 0, 0⟩, 0.99999999999999989),
    (⟨2, 0, 2, 2, 0, 2⟩, 0.99999999999999989),
    (⟨2, 1, 1, -2, 1, -1⟩, -0.81649658092772615),
    (⟨2, 1, 1, 0, -1, -1⟩, 0.57735026918962584),
    (⟨2, 1, 1, 0, 1, 1⟩, -0.57735026918962584),
    (⟨2, 1, 1, 2, -1, 1⟩, 0.81649658092772615),
    (⟨2, 1, 3, -2, -1, -3⟩, 1.00000000000000000),
    (⟨2, 1, 3, -2, 1, -1⟩, 0.57735026918962584),
    (⟨2, 1, 3, 0, -1, -1⟩, 0.81649658092772615),
    (⟨2, 1, 3, 0, 1, 1⟩, 0.81649658092772615),
    (⟨2, 1, 3, 2, -1, 1⟩, 0.57735026918962584)]

def cg_table_2 : CGTable := [
    (⟨2, 1, 3, 2, 1, 3⟩, 1.00000000000000000),
    (⟨2, 2, 0, -2, 2, 0⟩, 0.57735026918962584),
    (⟨2, 2, 0, 0, 0, 0⟩, -0.57735026918962573),
    (⟨2, 2, 0, 2, -2, 0⟩, 0.57735026918962584),
    (⟨2, 2, 2, -2, 0, -2⟩, -0.70710678118654735),
    (⟨2, 2, 2, -2, 2, 0⟩, -0.70710678118654735),
    (⟨2, 2, 2, 0, -2, -2⟩, 0.70710678118654735),
    (⟨2, 2, 2, 0, 2, 2⟩, -0.70710678118654735),
    (⟨2, 2, 2, 2, -2, 0⟩, 0.70710678118654735),
    (⟨2, 2, 2, 2, 0, 2⟩, 0.70710678118654735),
    (⟨2, 2, 4, -2, -2, -4⟩, 1.00000000000000022),
    (⟨2, 2, 4, -2, 0, -2⟩, 0.70710678118654746),
    (⟨2, 2, 4, -2, 2, 0⟩, 0.40824829046386313),
    (⟨2, 2, 4, 0, -2, -2⟩, 0.70710678118654746),
    (⟨2, 2, 4, 0, 0, 0⟩, 0.81649658092772615),
    (⟨2, 2, 4, 0, 2, 2⟩, 0.70710678118654746),
    (⟨2, 2, 4, 2, -2, 0⟩, 0.40824829046386313),
    (⟨2, 2, 4, 2, 0, 2⟩, 0.70710678118654746),
    (⟨2, 2, 4, 2, 2, 4⟩, 1.00000000000000022),
    (⟨2, 3, 1, -2, 1, -1⟩, 0.40824829046386302),
    (⟨2, 3, 1, -2, 3, 1⟩, 0.70710678118654746),
    (⟨2, 3, 1, 0, -1, -1⟩, -0.57735026918962573),
    (⟨2, 3, 1, 0, 1, 1⟩, -0.57735026918962573),
    (⟨2, 3, 1, 2, -3, -1⟩, 0.70710678118654746),
    (⟨2, 3, 1, 2, -1, 1⟩, 0.40824829046386302),
    (⟨2, 3, 3, -2, -1, -3⟩, -0.63245553203367610),
    (⟨2, 3, 3, -2, 1, -1⟩, -0.73029674334022165)]

def cg_table_3 : CGTable := [
    (⟨2, 3, 3, -2, 3, 1⟩, -0.63245553203367610),
    (⟨2, 3, 3, 0, -3, -3⟩, 0.77459666924148352),
    (⟨2, 3, 3, 0, -1, -1⟩, 0.25819888974716126),
    (⟨2, 3, 3, 0, 1, 1⟩, -0.25819888974716126),
    (⟨2, 3, 3, 0, 3, 3⟩, -0.77459666924148352),
    (⟨2, 3, 3, 2, -3, -1⟩, 0.63245553203367610),
    (⟨2, 3, 3, 2, -1, 1⟩, 0.73029674334022165),
    (⟨2, 3, 3, 2, 1, 3⟩, 0.63245553203367610),
    (⟨2, 3, 5, -2, -3, -5⟩, 0.99999999999999989),
    (⟨2, 3, 5, -2, -1, -3⟩, 0.77459666924148318),
    (⟨2, 3, 5, -2, 1, -1⟩, 0.54772255750516596),
    (⟨2, 3, 5, -2, 3, 1⟩, 0.31622776601683794),
    (⟨2, 3, 5, 0, -3, -3⟩, 0.63245553203367599),
    (⟨2, 3, 5, 0, -1, -1⟩, 0.77459666924148318),
    (⟨2, 3, 5, 0, 1, 1⟩, 0.77459666924148318),
    (⟨2, 3, 5, 0, 3, 3⟩, 0.63245553203367599),
    (⟨2, 3, 5, 2, -3, -1⟩, 0.31622776601683794),
    (⟨2, 3, 5, 2, -1, 1⟩, 0.54772255750516596),
    (⟨2, 3, 5, 2, 1, 3⟩, 0.77459666924148318),
    (⟨2, 3, 5, 2, 3, 5⟩, 0.99999999999999989),
    (⟨3, 0, 3, -3, 0, -3⟩, 1.00000000000000000),
    (⟨3, 0, 3, -1, 0, -1⟩, 0.99999999999999989),
    (⟨3, 0, 3, 1, 0, 1⟩, 0.99999999999999989),
    (⟨3, 0, 3, 3, 0, 3⟩, 1.00000000000000000),
    (⟨3, 1, 2, -3, 1, -2⟩, -0.86602540378443837),
    (⟨3, 1, 2, -1, -1, -2⟩, 0.49999999999999983),
    (⟨3, 1, 2, -1, 1, 0⟩, -0.70710678118654724)]

def cg_table_4 : CGTable := [
    (⟨3, 1, 2, 1, -1, 0⟩, 0.70710678118654724),
    (⟨3, 1, 2, 1, 1, 2⟩, -0.49999999999999983),
    (⟨3, 1, 2, 3, -1, 2⟩, 0.86602540378443837),
    (⟨3, 1, 4, -3, -1, -4⟩, 1.00000000000000022),
    (⟨3, 1, 4, -3, 1, -2⟩, 0.49999999999999994),
    (⟨3, 1, 4, -1, -1, -2⟩, 0.86602540378443871),
    (⟨3, 1, 4, -1, 1, 0⟩, 0.70710678118654746),
    (⟨3, 1, 4, 1, -1, 0⟩, 0.70710678118654746),
    (⟨3, 1, 4, 1, 1, 2⟩, 0.86602540378443871),
    (⟨3, 1, 4, 3, -1, 2⟩, 0.49999999999999994),
    (⟨3, 1, 4, 3, 1, 4⟩, 1.00000000000000022),
    (⟨3, 2, 1, -3, 2, -1⟩, 0.70710678118654746),
    (⟨3, 2, 1, -1, 0, -1⟩, -0.57735026918962573),
    (⟨3, 2, 1, -1, 2, 1⟩, 0.40824829046386302),
    (⟨3, 2, 1, 1, -2, -1⟩, 0.40824829046386302),
    (⟨3, 2, 1, 1, 0, 1⟩, -0.57735026918962573),
    (⟨3, 2, 1, 3, -2, 1⟩, 0.70710678118654746),
    (⟨3, 2, 3, -3, 0, -3⟩, -0.77459666924148352),
    (⟨3, 2, 3, -3, 2, -1⟩, -0.63245553203367610),
    (⟨3, 2, 3, -1, -2, -3⟩, 0.63245553203367610),
    (⟨3, 2, 3, -1, 0, -1⟩, -0.25819888974716126),
    (⟨3, 2, 3, -1, 2, 1⟩, -0.73029674334022165),
    (⟨3, 2, 3, 1, -2, -1⟩, 0.73029674334022165),
    (⟨3, 2, 3, 1, 0, 1⟩, 0.25819888974716126),
    (⟨3, 2, 3, 1, 2, 3⟩, -0.63245553203367610),
    (⟨3, 2, 3, 3, -2, 1⟩, 0.63245553203367610),
    (⟨3, 2, 3, 3, 0, 3⟩, 0.77459666924148352)]

def cg_table_5 : CGTable := [
    (⟨3, 2, 5, -3, -2, -5⟩, 0.99999999999999989),
    (⟨3, 2, 5, -3, 0, -3⟩, 0.63245553203367599),
    (⟨3, 2, 5, -3, 2, -1⟩, 0.31622776601683794),
    (⟨3, 2, 5, -1, -2, -3⟩, 0.77459666924148318),
    (⟨3, 2, 5, -1, 0, -1⟩, 0.77459666924148318),
    (⟨3, 2, 5, -1, 2, 1⟩, 0.54772255750516596),
    (⟨3, 2, 5, 1, -2, -1⟩, 0.54772255750516596),
    (⟨3, 2, 5, 1, 0, 1⟩, 0.77459666924148318),
    (⟨3, 2, 5, 1, 2, 3⟩, 0.77459666924148318),
    (⟨3, 2, 5, 3, -2, 1⟩, 0.31622776601683794),
    (⟨3, 2, 5, 3, 0, 3⟩, 0.63245553203367599),
    (⟨3, 2, 5, 3, 2, 5⟩, 0.99999999999999989),
    (⟨3, 3, 0, -3, 3, 0⟩, -0.49999999999999994),
    (⟨3, 3, 0, -1, 1, 0⟩, 0.49999999999999994),
    (⟨3, 3, 0, 1, -1, 0⟩, -0.49999999999999994),
    (⟨3, 3, 0, 3, -3, 0⟩, 0.49999999999999994),
    (⟨3, 3, 2, -3, 1, -2⟩, 0.54772255750516596),
    (⟨3, 3, 2, -3, 3, 0⟩, 0.67082039324993692),
    (⟨3, 3, 2, -1, -1, -2⟩, -0.63245553203367599),
    (⟨3, 3, 2, -1, 1, 0⟩, -0.22360679774997907),
    (⟨3, 3, 2, -1, 3, 2⟩, 0.54772255750516596),
    (⟨3, 3, 2, 1, -3, -2⟩, 0.54772255750516596),
    (⟨3, 3, 2, 1, -1, 0⟩, -0.22360679774997907),
    (⟨3, 3, 2, 1, 1, 2⟩, -0.63245553203367599),
    (⟨3, 3, 2, 3, -3, 0⟩, 0.67082039324993692),
    (⟨3, 3, 2, 3, -1, 2⟩, 0.54772255750516596),
    (⟨3, 3, 4, -3, -1, -4⟩, -0.70710678118654746)]

def cg_table_6 : CGTable := [
    (⟨3, 3, 4, -3, 1, -2⟩, -0.70710678118654746),
    (⟨3, 3, 4, -3, 3, 0⟩, -0.49999999999999994),
    (⟨3, 3, 4, -1, -3, -4⟩, 0.70710678118654746),
    (⟨3, 3, 4, -1, 1, 0⟩, -0.49999999999999994),
    (⟨3, 3, 4, -1, 3, 2⟩, -0.70710678118654746),
    (⟨3, 3, 4, 1, -3, -2⟩, 0.70710678118654746),
    (⟨3, 3, 4, 1, -1, 0⟩, 0.49999999999999994),
    (⟨3, 3, 4, 1, 3, 4⟩, -0.70710678118654746),
    (⟨3, 3, 4, 3, -3, 0⟩, 0.49999999999999994),
    (⟨3, 3, 4, 3, -1, 2⟩, 0.70710678118654746),
    (⟨3, 3, 4, 3, 1, 4⟩, 0.70710678118654746),
    (⟨3, 3, 6, -3, -3, -6⟩, 1.00000000000000022),
    (⟨3, 3, 6, -3, -1, -4⟩, 0.70710678118654746),
    (⟨3, 3, 6, -3, 1, -2⟩, 0.44721359549995793),
    (⟨3, 3, 6, -3, 3, 0⟩, 0.22360679774997894),
    (⟨3, 3, 6, -1, -3, -4⟩, 0.70710678118654746),
    (⟨3, 3, 6, -1, -1, -2⟩, 0.77459666924148352),
    (⟨3, 3, 6, -1, 1, 0⟩, 0.67082039324993670),
    (⟨3, 3, 6, -1, 3, 2⟩, 0.44721359549995793),
    (⟨3, 3, 6, 1, -3, -2⟩, 0.44721359549995793),
    (⟨3, 3, 6, 1, -1, 0⟩, 0.67082039324993670),
    (⟨3, 3, 6, 1, 1, 2⟩, 0.77459666924148352),
    (⟨3, 3, 6, 1, 3, 4⟩, 0.70710678118654746),
    (⟨3, 3, 6, 3, -3, 0⟩, 0.22360679774997894),
    (⟨3, 3, 6, 3, -1, 2⟩, 0.44721359549995793),
    (⟨3, 3, 6, 3, 1, 4⟩, 0.70710678118654746),
    (⟨3, 3, 6, 3, 3, 6⟩, 1.00000000000000022)]

def cg_lookup_table : CGTable :=
  cg_table_0 ++ cg_table_1 ++ cg_table_2 ++ cg_table_3 ++ cg_table_4 ++ cg_table_5 ++ cg_table_6

/-! ### Step equations of the two finder loops -/

/-- Processing step for a stable head particle: skipped, counter kept. -/
theorem find_cell_cons_stable {stream : ℕ → ℚ} {dt : ℚ} {p : Particle}
    {ps : List Particle} {k : ℕ} (h1 : p.type.is_stable = true) :
    find_actions_in_cell stream dt (p :: ps) k =
      find_actions_in_cell stream dt ps k := by
  rw [find_actions_in_cell]
  simp [h1]

/-- Processing step for an unstable head particle without open hadronic
channels: skipped, counter kept. -/
theorem find_cell_cons_nowidth {stream : ℕ → ℚ} {dt : ℚ} {p : Particle}
    {ps : List Particle} {k : ℕ} (h1 : p.type.is_stable = false)
    (h2 : ¬ 0 < hadronic_width p) :
    find_actions_in_cell stream dt (p :: ps) k =
      find_actions_in_cell stream dt ps k := by
  rw [find_actions_in_cell]
  simp only [h1, Bool.false_eq_true, if_false]
  simp only [hadronic_width, hadronic_processes] at h2
  rw [if_neg h2]

/-- Processing step for an unstable head particle with positive hadronic
width whose sampled time passes both the step bound and the formation
gate: an action is emitted and the draw counter advances. -/
theorem find_cell_cons_decay {stream : ℕ → ℚ} {dt : ℚ} {p : Particle}
    {ps : List Particle} {k : ℕ} (h1 : p.type.is_stable = false)
    (h2 : 0 < hadronic_width p)
    (h3 : sampled_decay_time stream k p < dt ∧
      p.formation_time < p.position_x0 + sampled_decay_time stream k p) :
    find_actions_in_cell stream dt (p :: ps) k =
      ⟨p, sampled_decay_time stream k p, hadronic_processes p⟩ ::
        find_actions_in_cell stream dt ps (k + 1) := by
  rw [find_actions_in_cell]
  simp only [h1, Bool.false_eq_true, if_false]
  simp only [hadronic_width, hadronic_processes, sampled_decay_time] at h2 h3 ⊢
  rw [if_pos h2, if_pos h3]

/-- Processing step for an unstable head particle with positive hadronic
width whose sampled time fails the step bound or the formation gate: no
action, but the draw counter advances. -/
theorem find_cell_cons_nodecay {stream : ℕ → ℚ} {dt : ℚ} {p : Particle}
    {ps : List Particle} {k : ℕ} (h1 : p.type.is_stable = false)
    (h2 : 0 < hadronic_width p)
    (h3 : ¬ (sampled_decay_time stream k p < dt ∧
      p.formation_time < p.position_x0 + sampled_decay_time stream k p)) :
    find_actions_in_cell stream dt (p :: ps) k =
      find_actions_in_cell stream dt ps (k + 1) := by
  rw [find_actions_in_cell]
  simp only [h1, Bool.false_eq_true, if_false]
  simp only [hadronic_width, hadronic_processes, sampled_decay_time] at h2 h3 ⊢
  rw [if_pos h2, if_neg h3]

/-- Final-sweep step for a stable head particle: skipped. -/
theorem find_final_cons_stable {p : Particle} {ps : List Particle}
    {only_res : Bool} (h1 : p.type.is_stable = true) :
    find_final_actions (p :: ps) only_res = find_final_actions ps only_res := by
  rw [find_final_actions]
  simp [h1]

/-- Final-sweep step for an unstable head particle: an action with decay
time `0` and the full channel list is emitted unconditionally. -/
theorem find_final_cons_unstable {p : Particle} {ps : List Particle}
    {only_res : Bool} (h1 : p.type.is_stable = false) :
    find_final_actions (p :: ps) only_res =
      ⟨p, 0, p.type.get_partial_widths p.effective_mass⟩ ::
        find_final_actions ps only_res := by
  rw [find_final_actions]
  simp [h1]

/-! ### Theorems about the decay-action finder -/

/-- Concrete unstable particle type with one open channel of weight 1,
used to instantiate hypotheses of the finder theorems. -/
def witness_type : ParticleType :=
  ⟨false, fun _ => [⟨0, 1⟩], fun _ => [⟨0, 1⟩]⟩

/-- Concrete unstable particle of `witness_type`. -/
def witness_particle : Particle := ⟨witness_type, 1, 0, 0, 1⟩

/-- Concrete unstable particle type whose channel catalog returns empty
channel lists (no open channel at the current mass). -/
def zero_width_type : ParticleType := ⟨false, fun _ => [], fun _ => []⟩

/-- Concrete unstable particle of `zero_width_type`. -/
def zero_width_particle : Particle := ⟨zero_width_type, 1, 0, 0, 1⟩

/-- `one_over_hbarc` is positive. -/
theorem one_over_hbarc_pos : 0 < one_over_hbarc := by
  norm_num [one_over_hbarc, hbarc]

/-- Claim C1: for an unstable particle with strictly positive summed
hadronic width, the per-step discovery produces an action for it if and
only if the sampled decay time `t` satisfies `0 ≤ t < dt` and the
formation gate `formation_time < position.x0() + t` accepts; the
equation form makes both boundary facts explicit: when
`formation_time = position.x0() + t` the condition is false (strict
inequality required, particle rejected), and when
`formation_time < position.x0() + t` (with `0 ≤ t < dt`) the particle is
eligible. -/
theorem decay_in_step_iff (stream : ℕ → ℚ) (dt : ℚ) (p : Particle)
    (ps : List Particle) (k : ℕ)
    (hunst : p.type.is_stable = false)
    (hw : 0 < hadronic_width p)
    (hdraw : 0 ≤ stream k) (hgamma : 0 < p.inverse_gamma) :
    find_actions_in_cell stream dt (p :: ps) k =
      (if 0 ≤ sampled_decay_time stream k p ∧
          sampled_decay_time stream k p < dt ∧
          p.formation_time < p.position_x0 + sampled_decay_time stream k p
        then [⟨p, sampled_decay_time stream k p, hadronic_processes p⟩]
        else []) ++ find_actions_in_cell stream dt ps (k + 1) := by
  have hrate : 0 < one_over_hbarc * p.inverse_gamma * hadronic_width p :=
    mul_pos (mul_pos one_over_hbarc_pos hgamma) hw
  have ht : 0 ≤ sampled_decay_time stream k p :=
    div_nonneg hdraw hrate.le
  by_cases hc : sampled_decay_time stream k p < dt ∧
      p.formation_time < p.position_x0 + sampled_decay_time stream k p
  · rw [find_cell_cons_decay hunst hw hc, if_pos ⟨ht, hc⟩]
    rfl
  · rw [find_cell_cons_nodecay hunst hw hc, if_neg fun h => hc h.2]
    rfl

/-- Claim C1, witness: the theorem instantiated at a concrete unstable
particle, unit draw and unit time step. -/
theorem decay_in_step_iff_witness :
    find_actions_in_cell (fun _ => 1) 1 [witness_particle] 0 =
      (if 0 ≤ sampled_decay_time (fun _ => 1) 0 witness_particle ∧
          sampled_decay_time (fun _ => 1) 0 witness_particle < 1 ∧
          witness_particle.formation_time < witness_particle.position_x0 +
            sampled_decay_time (fun _ => 1) 0 witness_particle
        then [⟨witness_particle, sampled_decay_time (fun _ => 1) 0 witness_particle,
          hadronic_processes witness_particle⟩]
        else []) ++ find_actions_in_cell (fun _ => 1) 1 [] 1 :=
  decay_in_step_iff (fun _ => 1) 1 witness_particle [] 0 rfl
    (by norm_num [hadronic_width, hadronic_processes, total_weight,
      witness_particle, witness_type])
    (by norm_num) (by norm_num [witness_particle])

/-- Claim C3: stability monotonicity — every action in the output of
either `find_actions_in_cell` or `find_final_actions` stems from an
unstable particle, so a stable particle never contributes an action. -/
theorem stable_never_decays (stream : ℕ → ℚ) (dt : ℚ) (l : List Particle)
    (k : ℕ) (only_res : Bool) :
    ((find_actions_in_cell stream dt l k).all
        fun a => !a.particle.type.is_stable) = true ∧
      ((find_final_actions l only_res).all
        fun a => !a.particle.type.is_stable) = true := by
  constructor
  · induction l generalizing k with
    | nil => rfl
    | cons p ps ih =>
      by_cases h1 : p.type.is_stable
      · rw [find_cell_cons_stable h1]
        exact ih k
      · simp only [Bool.not_eq_true] at h1
        by_cases h2 : 0 < hadronic_width p
        · by_cases h3 : sampled_decay_time stream k p < dt ∧
              p.formation_time < p.position_x0 + sampled_decay_time stream k p
          · rw [find_cell_cons_decay h1 h2 h3]
            simpa [h1] using ih (k + 1)
          · rw [find_cell_cons_nodecay h1 h2 h3]
            exact ih (k + 1)
        · rw [find_cell_cons_nowidth h1 h2]
          exact ih k
  · induction l with
    | nil => rfl
    | cons p ps ih =>
      by_cases h1 : p.type.is_stable
      · rw [find_final_cons_stable h1]
        exact ih
      · simp only [Bool.not_eq_true] at h1
        rw [find_final_cons_unstable h1]
        simpa [h1] using ih

/-- Claim C6: an unstable particle whose summed hadronic width is not
strictly positive is silently skipped by the per-step discovery: no
action, no failure, and the remaining particles are processed exactly as
before. -/
theorem zero_width_silently_skipped (stream : ℕ → ℚ) (dt : ℚ)
    (p : Particle) (ps : List Particle) (k : ℕ)
    (hunst : p.type.is_stable = false)
    (hw : ¬ 0 < hadronic_width p) :
    find_actions_in_cell stream dt (p :: ps) k =
      find_actions_in_cell stream dt ps k :=
  find_cell_cons_nowidth hunst hw

/-- Claim C6, witness: the theorem instantiated at a concrete unstable
particle with an empty hadronic channel list. -/
theorem zero_width_silently_skipped_witness :
    find_actions_in_cell (fun _ => 1) 1 [zero_width_particle] 0 =
      find_actions_in_cell (fun _ => 1) 1 [] 0 :=
  zero_width_silently_skipped (fun _ => 1) 1 zero_width_particle [] 0 rfl
    (by norm_num [hadronic_width, hadronic_processes, total_weight,
      zero_width_particle, zero_width_type])

/-- Claim C9: the `only_res` flag of `find_final_actions` has no
influence on the result — the outputs for any two flag values are
identical on every input list. -/
theorem final_actions_flag_independent (l : List Particle)
    (only_res only_res' : Bool) :
    find_final_actions l only_res = find_final_actions l only_res' := by
  induction l with
  | nil => rfl
  | cons p ps ih =>
    by_cases h : p.type.is_stable
    · rw [find_final_cons_stable h, find_final_cons_stable h, ih]
    · simp only [Bool.not_eq_true] at h
      rw [find_final_cons_unstable h, find_final_cons_unstable h, ih]

/-- Claim C10: both finders preserve input order — the source particles
of the produced actions form an ordered sublist of the input list. -/
theorem actions_preserve_order (stream : ℕ → ℚ) (dt : ℚ)
    (l : List Particle) (k : ℕ) (only_res : Bool) :
    List.Sublist
        ((find_actions_in_cell stream dt l k).map DecayAction.particle) l ∧
      List.Sublist
        ((find_final_actions l only_res).map DecayAction.particle) l := by
  constructor
  · induction l generalizing k with
    | nil => exact List.Sublist.refl []
    | cons p ps ih =>
      by_cases h1 : p.type.is_stable
      · rw [find_cell_cons_stable h1]
        exact List.Sublist.cons p (ih k)
      · simp only [Bool.not_eq_true] at h1
        by_cases h2 : 0 < hadronic_width p
        · by_cases h3 : sampled_decay_time stream k p < dt ∧
              p.formation_time < p.position_x0 + sampled_decay_time stream k p
          · rw [find_cell_cons_decay h1 h2 h3]
            exact List.Sublist.cons₂ p (ih (k + 1))
          · rw [find_cell_cons_nodecay h1 h2 h3]
            exact List.Sublist.cons p (ih (k + 1))
        · rw [find_cell_cons_nowidth h1 h2]
          exact List.Sublist.cons p (ih k)
  · induction l with
    | nil => exact List.Sublist.refl []
    | cons p ps ih =>
      by_cases h1 : p.type.is_stable
      · rw [find_final_cons_stable h1]
        exact List.Sublist.cons p ih
      · simp only [Bool.not_eq_true] at h1
        rw [find_final_cons_unstable h1]
        exact List.Sublist.cons₂ p ih

/-- Claim C2, counterexample: a list holding one unstable particle whose
full channel list at the current mass is empty yields exactly one final
action, but that action's channel list is empty — the claim's
non-emptiness requirement fails. -/
theorem final_action_empty_channels :
    zero_width_particle.type.is_stable = false ∧
      (find_final_actions [zero_width_particle] false).map
        DecayAction.decays = [[]] :=
  ⟨rfl, rfl⟩

/-- Claim C2 (amended): for a particle list containing only unstable
particles, the forced final sweep returns exactly one action per
particle, in order, each with decay time `0` and channel list equal to
the full (not hadronic-only) channel set at the current effective mass;
the channel list is not guaranteed to be non-empty (it is empty exactly
when the catalog's full channel set is). -/
theorem final_actions_forced (l : List Particle) (only_res : Bool)
    (hunst : ∀ p ∈ l, p.type.is_stable = false) :
    find_final_actions l only_res =
      l.map fun p => ⟨p, 0, p.type.get_partial_widths p.effective_mass⟩ := by
  induction l with
  | nil => rfl
  | cons p ps ih =>
    rw [find_final_cons_unstable (hunst p (List.mem_cons_self p ps)),
      List.map_cons, ih fun q hq => hunst q (List.mem_cons_of_mem p hq)]

/-- Claim C2, witness: the amended theorem instantiated at the singleton
list of a concrete unstable particle. -/
theorem final_actions_forced_witness :
    find_final_actions [witness_particle] true =
      [witness_particle].map
        (fun p => ⟨p, 0, p.type.get_partial_widths p.effective_mass⟩) :=
  final_actions_forced [witness_particle] true
    (by intro p hp; rw [List.mem_singleton] at hp; rw [hp]; rfl)

/-- Claim C7, counterexample: called with the negative step size
`dt = -1` on an unstable particle with an open channel, the per-step
discovery does not fail — no assertion exists in the code — and silently
returns the empty action list. -/
theorem no_assertion_on_negative_dt :
    find_actions_in_cell (fun _ => 1) (-1) [witness_particle] 0 = [] := by
  rw [find_cell_cons_nodecay rfl]
  · rfl
  · norm_num [hadronic_width, hadronic_processes, total_weight,
      witness_particle, witness_type]
  · norm_num [sampled_decay_time, hadronic_width, hadronic_processes,
      total_weight, one_over_hbarc, hbarc, witness_particle, witness_type]

/-- Claim C7 (amended): `find_actions_in_cell` performs no check on
`dt`; with a non-positive step size it silently proceeds and — the
sampled decay times being non-negative — returns the empty action list,
instead of failing an assertion. -/
theorem nonpositive_dt_no_actions (stream : ℕ → ℚ) (dt : ℚ)
    (l : List Particle) (k : ℕ) (hdt : dt ≤ 0)
    (hdraw : ∀ i, 0 ≤ stream i)
    (hgamma : ∀ p ∈ l, 0 < p.inverse_gamma) :
    find_actions_in_cell stream dt l k = [] := by
  induction l generalizing k with
  | nil => rfl
  | cons p ps ih =>
    have hrest : ∀ q ∈ ps, 0 < q.inverse_gamma := fun q hq =>
      hgamma q (List.mem_cons_of_mem p hq)
    by_cases h1 : p.type.is_stable
    · rw [find_cell_cons_stable h1]
      exact ih k hrest
    · simp only [Bool.not_eq_true] at h1
      by_cases h2 : 0 < hadronic_width p
      · have hrate : 0 < one_over_hbarc * p.inverse_gamma * hadronic_width p :=
          mul_pos (mul_pos one_over_hbarc_pos
            (hgamma p (List.mem_cons_self p ps))) h2
        have ht : 0 ≤ sampled_decay_time stream k p :=
          div_nonneg (hdraw k) hrate.le
        rw [find_cell_cons_nodecay h1 h2 fun h =>
          absurd (lt_of_le_of_lt ht h.1) (not_lt.mpr hdt)]
        exact ih (k + 1) hrest
      · rw [find_cell_cons_nowidth h1 h2]
        exact ih k hrest

/-- Claim C7, witness: the amended theorem instantiated at a concrete
unstable particle and step size `0`. -/
theorem nonpositive_dt_no_actions_witness :
    find_actions_in_cell (fun _ => 1) 0 [witness_particle] 0 = [] :=
  nonpositive_dt_no_actions (fun _ => 1) 0 [witness_particle] 0 le_rfl
    (fun _ => by norm_num)
    (by intro p hp; rw [List.mem_singleton] at hp; rw [hp]; norm_num [witness_particle])

/-! ### Theorems about the Clebsch-Gordan lookup -/

/-- Claim C4, counterexample: two distinct physically valid keys — both
present in the bundled lookup table — on which `ThreeSpinHash` collides:
`(0,1,1,0,-1,-1)` and `(1,1,0,-1,1,0)` both hash to `6`. -/
theorem cgHash_collision :
    valid ⟨0, 1, 1, 0, -1, -1⟩ ∧ valid ⟨1, 1, 0, -1, 1, 0⟩ ∧
      (⟨0, 1, 1, 0, -1, -1⟩ : ThreeSpins) ≠ ⟨1, 1, 0, -1, 1, 0⟩ ∧
      cgHash ⟨0, 1, 1, 0, -1, -1⟩ = cgHash ⟨1, 1, 0, -1, 1, 0⟩ := by
  decide

/-- Claim C5: the memoized `coefficient` is idempotent and write-once —
after one call, any further call on the same key (with any analytic
calculator, hence without recomputation) returns the identical stored
value and leaves the table unchanged, and every previously stored key
keeps its value. -/
theorem coefficient_memoized (calcCoeff : ThreeSpins → ℚ) (table : CGTable)
    (key : ThreeSpins) :
    (∀ calcCoeff', coefficient calcCoeff' (coefficient calcCoeff table key).2 key =
        ((coefficient calcCoeff table key).1, (coefficient calcCoeff table key).2)) ∧
      tableLookup (coefficient calcCoeff table key).2 key =
        some (coefficient calcCoeff table key).1 ∧
      ∀ k v, tableLookup table k = some v →
        tableLookup (coefficient calcCoeff table key).2 k = some v := by
  cases h : tableLookup table key with
  | some v =>
    refine ⟨fun calcCoeff' => ?_, ?_, fun k w hw => ?_⟩
    · simp only [coefficient, h]
    · simp only [coefficient, h]
    · simp only [coefficient, h]
      exact hw
  | none =>
    refine ⟨fun calcCoeff' => ?_, ?_, fun k w hw => ?_⟩
    · simp only [coefficient, h]
      simp [coefficient, tableLookup]
    · simp only [coefficient, h]
      simp [tableLookup]
    · simp only [coefficient, h]
      have hk : ¬ k = key := fun hk => by
        rw [hk, h] at hw
        exact Option.noConfusion hw
      simp only [tableLookup, hk, if_false]
      exact hw

/-- Claim C5, witness: the write-once conjunct instantiated at a concrete
one-entry table and a fresh key. -/
theorem coefficient_memoized_witness :
    tableLookup (coefficient (fun _ => 0) [(⟨0, 0, 0, 0, 0, 0⟩, 1)]
        ⟨1, 1, 0, -1, 1, 0⟩).2 ⟨0, 0, 0, 0, 0, 0⟩ = some 1 :=
  (coefficient_memoized (fun _ => 0) [(⟨0, 0, 0, 0, 0, 0⟩, 1)]
      ⟨1, 1, 0, -1, 1, 0⟩).2.2 ⟨0, 0, 0, 0, 0, 0⟩ 1 rfl

/-- Claim C8: spot-check identities on the bundled table, through the
memoized access path and for any analytic calculator: the coefficient of
`(0,0,0,0,0,0)` equals `1`, and the coefficients of `(1,1,0,-1,1,0)` and
`(1,1,0,1,-1,0)` are exact negations of each other, both differences
within the floating tolerance `1e-12`. -/
theorem cg_spot_checks (calcCoeff : ThreeSpins → ℚ) :
    |(coefficient calcCoeff cg_lookup_table ⟨0, 0, 0, 0, 0, 0⟩).1 - 1| ≤
        1 / 1000000000000 ∧
      |(coefficient calcCoeff cg_lookup_table ⟨1, 1, 0, -1, 1, 0⟩).1 +
          (coefficient calcCoeff cg_lookup_table ⟨1, 1, 0, 1, -1, 0⟩).1| ≤
        1 / 1000000000000 := by
  have h0 : (coefficient calcCoeff cg_lookup_table ⟨0, 0, 0, 0, 0, 0⟩).1 =
      (1.00000000000000000 : ℚ) := rfl
  have h1 : (coefficient calcCoeff cg_lookup_table ⟨1, 1, 0, -1, 1, 0⟩).1 =
      (-0.70710678118654757 : ℚ) := rfl
  have h2 : (coefficient calcCoeff cg_lookup_table ⟨1, 1, 0, 1, -1, 0⟩).1 =
      (0.70710678118654757 : ℚ) := rfl
  rw [h0, h1, h2]
  norm_num

/-! ### The Rasch index: binomial identities -/

/-- Pascal-recursion chain instance for the quadratic factor. -/
theorem chain2 (n : ℕ) : (n + 1) * n = Nat.choose (n + 1) 2 * 2 := by
  have h : (n + 1) * Nat.choose n 1 = Nat.choose (n + 1) 2 * 2 :=
    Nat.succ_mul_choose_eq n 1
  rwa [Nat.choose_one_right] at h

/-- Pascal-recursion chain instance for the cubic factor. -/
theorem chain3 (n : ℕ) :
    (n + 2) * Nat.choose (n + 1) 2 = Nat.choose (n + 2) 3 * 3 :=
  Nat.succ_mul_choose_eq (n + 1) 2

/-- Pascal-recursion chain instance for the quartic factor. -/
theorem chain4 (n : ℕ) :
    (n + 3) * Nat.choose (n + 2) 3 = Nat.choose (n + 3) 4 * 4 :=
  Nat.succ_mul_choose_eq (n + 2) 3

/-- Pascal-recursion chain instance for the quintic factor. -/
theorem chain5 (n : ℕ) :
    (n + 4) * Nat.choose (n + 3) 4 = Nat.choose (n + 4) 5 * 5 :=
  Nat.succ_mul_choose_eq (n + 3) 4

/-- The quadratic hash summand is an exact multiple of 2: it is twice a
binomial coefficient. -/
theorem poly2 (n : ℕ) : n * (n + 1) = 2 * Nat.choose (n + 1) 2 := by
  calc n * (n + 1) = (n + 1) * n := Nat.mul_comm n (n + 1)
    _ = Nat.choose (n + 1) 2 * 2 := chain2 n
    _ = 2 * Nat.choose (n + 1) 2 := Nat.mul_comm _ 2

/-- The cubic hash summand is an exact multiple of 6: it is six times a
binomial coefficient. -/
theorem poly3 (n : ℕ) : n * (2 + n * (3 + n)) = 6 * Nat.choose (n + 2) 3 := by
  calc n * (2 + n * (3 + n)) = (n + 2) * (n * (n + 1)) := by ring
    _ = (n + 2) * (2 * Nat.choose (n + 1) 2) := by rw [poly2]
    _ = 2 * ((n + 2) * Nat.choose (n + 1) 2) := by ring
    _ = 2 * (Nat.choose (n + 2) 3 * 3) := by rw [chain3]
    _ = 6 * Nat.choose (n + 2) 3 := by ring

/-- The quartic hash summand is an exact multiple of 24: it is 24 times a
binomial coefficient. -/
theorem poly4 (n : ℕ) :
    n * (6 + n * (11 + n * (6 + n))) = 24 * Nat.choose (n + 3) 4 := by
  calc n * (6 + n * (11 + n * (6 + n)))
      = (n + 3) * (n * (2 + n * (3 + n))) := by ring
    _ = (n + 3) * (6 * Nat.choose (n + 2) 3) := by rw [poly3]
    _ = 6 * ((n + 3) * Nat.choose (n + 2) 3) := by ring
    _ = 6 * (Nat.choose (n + 3) 4 * 4) := by rw [chain4]
    _ = 24 * Nat.choose (n + 3) 4 := by ring

/-- The quintic hash summand is an exact multiple of 120: it is 120 times
a binomial coefficient. -/
theorem poly5 (n : ℕ) :
    n * (24 + n * (50 + n * (35 + n * (10 + n)))) =
      120 * Nat.choose (n + 4) 5 := by
  calc n * (24 + n * (50 + n * (35 + n * (10 + n))))
      = (n + 4) * (n * (6 + n * (11 + n * (6 + n)))) := by ring
    _ = (n + 4) * (24 * Nat.choose (n + 3) 4) := by rw [poly4]
    _ = 24 * ((n + 4) * Nat.choose (n + 3) 4) := by ring
    _ = 24 * (Nat.choose (n + 4) 5 * 5) := by rw [chain5]
    _ = 120 * Nat.choose (n + 4) 5 := by ring

/-- Truncating integer division of cast naturals is the cast of natural
division. -/
theorem natCast_tdiv (m n : ℕ) : Int.tdiv (↑m) (↑n) = ((m / n : ℕ) : ℤ) := rfl

/-- The quintic `cgHash` summand over a non-negative argument, in exact
binomial form. -/
theorem tdiv5 (n : ℕ) :
    Int.tdiv ((n : ℤ) * (24 + (n : ℤ) * (50 + (n : ℤ) * (35 + (n : ℤ) *
      (10 + (n : ℤ)))))) 120 = (Nat.choose (n + 4) 5 : ℤ) := by
  have hcast : ((n : ℤ) * (24 + (n : ℤ) * (50 + (n : ℤ) * (35 + (n : ℤ) *
      (10 + (n : ℤ)))))) =
      ((n * (24 + n * (50 + n * (35 + n * (10 + n)))) : ℕ) : ℤ) := by
    push_cast
    ring
  rw [hcast, show (120 : ℤ) = ((120 : ℕ) : ℤ) by norm_num, natCast_tdiv,
    poly5, Nat.mul_div_cancel_left _ (by norm_num)]

/-- The quartic `cgHash` summand over a non-negative argument, in exact
binomial form. -/
theorem tdiv4 (n : ℕ) :
    Int.tdiv ((n : ℤ) * (6 + (n : ℤ) * (11 + (n : ℤ) * (6 + (n : ℤ))))) 24 =
      (Nat.choose (n + 3) 4 : ℤ) := by
  have hcast : ((n : ℤ) * (6 + (n : ℤ) * (11 + (n : ℤ) * (6 + (n : ℤ))))) =
      ((n * (6 + n * (11 + n * (6 + n))) : ℕ) : ℤ) := by
    push_cast
    ring
  rw [hcast, show (24 : ℤ) = ((24 : ℕ) : ℤ) by norm_num, natCast_tdiv,
    poly4, Nat.mul_div_cancel_left _ (by norm_num)]

/-- The cubic `cgHash` summand over a non-negative argument, in exact
binomial form. -/
theorem tdiv3 (n : ℕ) :
    Int.tdiv ((n : ℤ) * (2 + (n : ℤ) * (3 + (n : ℤ)))) 6 =
      (Nat.choose (n + 2) 3 : ℤ) := by
  have hcast : ((n : ℤ) * (2 + (n : ℤ) * (3 + (n : ℤ)))) =
      ((n * (2 + n * (3 + n)) : ℕ) : ℤ) := by
    push_cast
    ring
  rw [hcast, show (6 : ℤ) = ((6 : ℕ) : ℤ) by norm_num, natCast_tdiv,
    poly3, Nat.mul_div_cancel_left _ (by norm_num)]

/-- The quadratic `cgHash` summand over a non-negative argument, in exact
binomial form. -/
theorem tdiv2 (n : ℕ) :
    Int.tdiv ((n : ℤ) * ((n : ℤ) + 1)) 2 = (Nat.choose (n + 1) 2 : ℤ) := by
  have hcast : ((n : ℤ) * ((n : ℤ) + 1)) = ((n * (n + 1) : ℕ) : ℤ) := by
    push_cast
    ring
  rw [hcast, show (2 : ℤ) = ((2 : ℕ) : ℤ) by norm_num, natCast_tdiv,
    poly2, Nat.mul_div_cancel_left _ (by norm_num)]

/-- Pascal step at level 2. -/
theorem f2step (n : ℕ) :
    Nat.choose (n + 2) 2 = Nat.choose (n + 1) 2 + (n + 1) := by
  have h : Nat.choose (n + 2) 2 = Nat.choose (n + 1) 1 + Nat.choose (n + 1) 2 :=
    Nat.choose_succ_succ (n + 1) 1
  rw [Nat.choose_one_right] at h
  omega

/-- Pascal step at level 3. -/
theorem f3step (n : ℕ) :
    Nat.choose (n + 3) 3 = Nat.choose (n + 2) 2 + Nat.choose (n + 2) 3 :=
  Nat.choose_succ_succ (n + 2) 2

/-- Pascal step at level 4. -/
theorem f4step (n : ℕ) :
    Nat.choose (n + 4) 4 = Nat.choose (n + 3) 3 + Nat.choose (n + 3) 4 :=
  Nat.choose_succ_succ (n + 3) 3

/-- Pascal step at level 5. -/
theorem f5step (n : ℕ) :
    Nat.choose (n + 5) 5 = Nat.choose (n + 4) 4 + Nat.choose (n + 4) 5 :=
  Nat.choose_succ_succ (n + 4) 4

/-- Digit bound at level 3: the lower digits of an ordered tuple fit
under the next level-2 binomial. -/
theorem ub3 {B S T : ℕ} (hB : B ≤ T) (hS : S ≤ B) :
    Nat.choose (B + 1) 2 + S + 1 ≤ Nat.choose (T + 2) 2 := by
  have h1 : Nat.choose (B + 1) 2 ≤ Nat.choose (T + 1) 2 :=
    Nat.choose_le_choose 2 (by omega)
  have h2 := f2step T
  omega

/-- Digit bound at level 4: the lower digits of an ordered tuple fit
under the next level-3 binomial. -/
theorem ub4 {T B S X : ℕ} (hT : T ≤ X) (hB : B ≤ T) (hS : S ≤ B) :
    Nat.choose (T + 2) 3 + Nat.choose (B + 1) 2 + S + 1 ≤
      Nat.choose (X + 3) 3 := by
  have h1 : Nat.choose (T + 2) 3 ≤ Nat.choose (X + 2) 3 :=
    Nat.choose_le_choose 3 (by omega)
  have h2 : Nat.choose (B + 1) 2 + S + 1 ≤ Nat.choose (T + 2) 2 := ub3 hB hS
  have h3 : Nat.choose (T + 2) 2 ≤ Nat.choose (X + 2) 2 :=
    Nat.choose_le_choose 2 (by omega)
  have h4 := f3step X
  omega

/-- Digit bound at level 5: the lower digits of an ordered tuple fit
under the next level-4 binomial. -/
theorem ub5 {X T B S L : ℕ} (hX : X ≤ L) (hT : T ≤ X) (hB : B ≤ T)
    (hS : S ≤ B) :
    Nat.choose (X + 3) 4 + Nat.choose (T + 2) 3 + Nat.choose (B + 1) 2 +
      S + 1 ≤ Nat.choose (L + 4) 4 := by
  have h1 : Nat.choose (X + 3) 4 ≤ Nat.choose (L + 3) 4 :=
    Nat.choose_le_choose 4 (by omega)
  have h2 : Nat.choose (T + 2) 3 + Nat.choose (B + 1) 2 + S + 1 ≤
      Nat.choose (X + 3) 3 := ub4 hT hB hS
  have h3 : Nat.choose (X + 3) 3 ≤ Nat.choose (L + 3) 3 :=
    Nat.choose_le_choose 3 (by omega)
  have h4 := f4step L
  omega

/-- Uniqueness of a digit in a combinatorial number system: if two sums
`f a + u` and `f b + v` agree, the remainders are positive, and each
remainder fits under the next value of the monotone digit function, then
the digits agree. -/
theorem digit_eq_of_sums_eq {f : ℕ → ℕ}
    (mono : ∀ m n : ℕ, m ≤ n → f m ≤ f n) {a b u v : ℕ}
    (hu : 0 < u) (hv : 0 < v)
    (hub : f a + u ≤ f (a + 1)) (hvb : f b + v ≤ f (b + 1))
    (heq : f a + u = f b + v) : a = b := by
  rcases lt_trichotomy a b with h | h | h
  · have hm := mono (a + 1) b (by omega)
    omega
  · exact h
  · have hm := mono (b + 1) a (by omega)
    omega

/-- The Rasch index is injective on canonically ordered tuples
`L ≥ X ≥ T ≥ B ≥ S`. -/
theorem natHash_inj {L X T B S L' X' T' B' S' : ℕ}
    (hX : X ≤ L) (hT : T ≤ X) (hB : B ≤ T) (hS : S ≤ B)
    (hX' : X' ≤ L') (hT' : T' ≤ X') (hB' : B' ≤ T') (hS' : S' ≤ B')
    (heq : natHash L X T B S = natHash L' X' T' B' S') :
    L = L' ∧ X = X' ∧ T = T' ∧ B = B' ∧ S = S' := by
  simp only [natHash] at heq
  have hL : L = L' := by
    refine digit_eq_of_sums_eq (f := fun n => Nat.choose (n + 4) 5)
      (a := L) (b := L')
      (u := Nat.choose (X + 3) 4 + Nat.choose (T + 2) 3 +
        Nat.choose (B + 1) 2 + S + 1)
      (v := Nat.choose (X' + 3) 4 + Nat.choose (T' + 2) 3 +
        Nat.choose (B' + 1) 2 + S' + 1)
      (fun m n h => Nat.choose_le_choose 5 (by omega)) (by omega) (by omega)
      ?_ ?_ ?_
    · show Nat.choose (L + 4) 5 + (Nat.choose (X + 3) 4 +
          Nat.choose (T + 2) 3 + Nat.choose (B + 1) 2 + S + 1) ≤
        Nat.choose (L + 1 + 4) 5
      have h1 := ub5 hX hT hB hS
      have h2 : Nat.choose (L + 1 + 4) 5 =
          Nat.choose (L + 4) 4 + Nat.choose (L + 4) 5 :=
        Nat.choose_succ_succ (L + 4) 4
      omega
    · show Nat.choose (L' + 4) 5 + (Nat.choose (X' + 3) 4 +
          Nat.choose (T' + 2) 3 + Nat.choose (B' + 1) 2 + S' + 1) ≤
        Nat.choose (L' + 1 + 4) 5
      have h1 := ub5 hX' hT' hB' hS'
      have h2 : Nat.choose (L' + 1 + 4) 5 =
          Nat.choose (L' + 4) 4 + Nat.choose (L' + 4) 5 :=
        Nat.choose_succ_succ (L' + 4) 4
      omega
    · show Nat.choose (L + 4) 5 + (Nat.choose (X + 3) 4 +
          Nat.choose (T + 2) 3 + Nat.choose (B + 1) 2 + S + 1) =
        Nat.choose (L' + 4) 5 + (Nat.choose (X' + 3) 4 +
          Nat.choose (T' + 2) 3 + Nat.choose (B' + 1) 2 + S' + 1)
      omega
  subst hL
  have hXe : X = X' := by
    refine digit_eq_of_sums_eq (f := fun n => Nat.choose (n + 3) 4)
      (a := X) (b := X')
      (u := Nat.choose (T + 2) 3 + Nat.choose (B + 1) 2 + S + 1)
      (v := Nat.choose (T' + 2) 3 + Nat.choose (B' + 1) 2 + S' + 1)
      (fun m n h => Nat.choose_le_choose 4 (by omega)) (by omega) (by omega)
      ?_ ?_ ?_
    · show Nat.choose (X + 3) 4 + (Nat.choose (T + 2) 3 +
          Nat.choose (B + 1) 2 + S + 1) ≤ Nat.choose (X + 1 + 3) 4
      have h1 := ub4 hT hB hS
      have h2 : Nat.choose (X + 1 + 3) 4 =
          Nat.choose (X + 3) 3 + Nat.choose (X + 3) 4 :=
        Nat.choose_succ_succ (X + 3) 3
      omega
    · show Nat.choose (X' + 3) 4 + (Nat.choose (T' + 2) 3 +
          Nat.choose (B' + 1) 2 + S' + 1) ≤ Nat.choose (X' + 1 + 3) 4
      have h1 := ub4 hT' hB' hS'
      have h2 : Nat.choose (X' + 1 + 3) 4 =
          Nat.choose (X' + 3) 3 + Nat.choose (X' + 3) 4 :=
        Nat.choose_succ_succ (X' + 3) 3
      omega
    · show Nat.choose (X + 3) 4 + (Nat.choose (T + 2) 3 +
          Nat.choose (B + 1) 2 + S + 1) =
        Nat.choose (X' + 3) 4 + (Nat.choose (T' + 2) 3 +
          Nat.choose (B' + 1) 2 + S' + 1)
      omega
  subst hXe
  have hTe : T = T' := by
    refine digit_eq_of_sums_eq (f := fun n => Nat.choose (n + 2) 3)
      (a := T) (b := T')
      (u := Nat.choose (B + 1) 2 + S + 1)
      (v := Nat.choose (B' + 1) 2 + S' + 1)
      (fun m n h => Nat.choose_le_choose 3 (by omega)) (by omega) (by omega)
      ?_ ?_ ?_
    · show Nat.choose (T + 2) 3 + (Nat.choose (B + 1) 2 + S + 1) ≤
        Nat.choose (T + 1 + 2) 3
      have h1 := ub3 hB hS
      have h2 : Nat.choose (T + 1 + 2) 3 =
          Nat.choose (T + 2) 2 + Nat.choose (T + 2) 3 :=
        Nat.choose_succ_succ (T + 2) 2
      omega
    · show Nat.choose (T' + 2) 3 + (Nat.choose (B' + 1) 2 + S' + 1) ≤
        Nat.choose (T' + 1 + 2) 3
      have h1 := ub3 hB' hS'
      have h2 : Nat.choose (T' + 1 + 2) 3 =
          Nat.choose (T' + 2) 2 + Nat.choose (T' + 2) 3 :=
        Nat.choose_succ_succ (T' + 2) 2
      omega
    · show Nat.choose (T + 2) 3 + (Nat.choose (B + 1) 2 + S + 1) =
        Nat.choose (T' + 2) 3 + (Nat.choose (B' + 1) 2 + S' + 1)
      omega
  subst hTe
  have hBe : B = B' := by
    refine digit_eq_of_sums_eq (f := fun n => Nat.choose (n + 1) 2)
      (a := B) (b := B') (u := S + 1) (v := S' + 1)
      (fun m n h => Nat.choose_le_choose 2 (by omega)) (by omega) (by omega)
      ?_ ?_ ?_
    · show Nat.choose (B + 1) 2 + (S + 1) ≤ Nat.choose (B + 2) 2
      have h2 := f2step B
      omega
    · show Nat.choose (B' + 1) 2 + (S' + 1) ≤ Nat.choose (B' + 2) 2
      have h2 := f2step B'
      omega
    · show Nat.choose (B + 1) 2 + (S + 1) =
        Nat.choose (B' + 1) 2 + (S' + 1)
      omega
  subst hBe
  exact ⟨rfl, rfl, rfl, rfl, by omega⟩

/-- On keys whose five hash combinations are non-negative, `cgHash`
computes exactly the cast Rasch index `natHash`. -/
theorem cgHash_eq_natHash {t : ThreeSpins} {l x w b s : ℕ}
    (hL : t.j1 - t.j2 + t.j3 = (l : ℤ)) (hX : t.j1 - t.m1 = (x : ℤ))
    (hT : t.j3 + t.m3 = (w : ℤ)) (hB : t.j2 - t.m2 = (b : ℤ))
    (hS : -t.j1 + t.j2 + t.j3 = (s : ℤ)) :
    cgHash t = (natHash l x w b s : ℤ) := by
  simp only [cgHash]
  rw [hL, hX, hT, hB, hS, tdiv5, tdiv4, tdiv3, tdiv2]
  push_cast [natHash]
  ring

/-- Claim C4 (amended): `ThreeSpinHash` is collision-free on the
physically valid keys that are additionally in Rasch canonical order
`L ≥ X ≥ T ≥ B ≥ S` (the domain on which the Rasch bijection underlying
the hash formula applies): two such keys with equal hash values are
equal.  (On the full valid domain the hash is not collision-free, see
the counterexample.) -/
theorem cgHash_perfect_on_ordered (t u : ThreeSpins)
    (hv : valid t) (hv' : valid u)
    (ho : rasch_ordered t) (ho' : rasch_ordered u)
    (heq : cgHash t = cgHash u) : t = u := by
  obtain ⟨a1, a2, a3, a4, a5, a6⟩ := t
  obtain ⟨c1, c2, c3, c4, c5, c6⟩ := u
  simp only [valid, rasch_ordered] at hv hv' ho ho'
  obtain ⟨l, hl⟩ := Int.eq_ofNat_of_zero_le
    (show (0 : ℤ) ≤ a1 - a2 + a3 by omega)
  obtain ⟨x, hx⟩ := Int.eq_ofNat_of_zero_le
    (show (0 : ℤ) ≤ a1 - a4 by omega)
  obtain ⟨w, hw⟩ := Int.eq_ofNat_of_zero_le
    (show (0 : ℤ) ≤ a3 + a6 by omega)
  obtain ⟨b, hb⟩ := Int.eq_ofNat_of_zero_le
    (show (0 : ℤ) ≤ a2 - a5 by omega)
  obtain ⟨s, hs⟩ := Int.eq_ofNat_of_zero_le
    (show (0 : ℤ) ≤ -a1 + a2 + a3 by omega)
  obtain ⟨l', hl'⟩ := Int.eq_ofNat_of_zero_le
    (show (0 : ℤ) ≤ c1 - c2 + c3 by omega)
  obtain ⟨x', hx'⟩ := Int.eq_ofNat_of_zero_le
    (show (0 : ℤ) ≤ c1 - c4 by omega)
  obtain ⟨w', hw'⟩ := Int.eq_ofNat_of_zero_le
    (show (0 : ℤ) ≤ c3 + c6 by omega)
  obtain ⟨b', hb'⟩ := Int.eq_ofNat_of_zero_le
    (show (0 : ℤ) ≤ c2 - c5 by omega)
  obtain ⟨s', hs'⟩ := Int.eq_ofNat_of_zero_le
    (show (0 : ℤ) ≤ -c1 + c2 + c3 by omega)
  rw [cgHash_eq_natHash hl hx hw hb hs,
    cgHash_eq_natHash hl' hx' hw' hb' hs'] at heq
  obtain ⟨e1, e2, e3, e4, e5⟩ := natHash_inj
    (show x ≤ l by omega) (show w ≤ x by omega) (show b ≤ w by omega)
    (show s ≤ b by omega)
    (show x' ≤ l' by omega) (show w' ≤ x' by omega) (show b' ≤ w' by omega)
    (show s' ≤ b' by omega) (Nat.cast_inj.mp heq)
  simp only [ThreeSpins.mk.injEq]
  refine ⟨by omega, by omega, by omega, by omega, by omega, by omega⟩

/-- Claim C4 (amended), witness: the injectivity theorem instantiated at
a concrete valid, canonically ordered key. -/
theorem cgHash_perfect_on_ordered_witness :
    valid ⟨0, 0, 0, 0, 0, 0⟩ ∧ rasch_ordered ⟨0, 0, 0, 0, 0, 0⟩ ∧
      (⟨0, 0, 0, 0, 0, 0⟩ : ThreeSpins) = ⟨0, 0, 0, 0, 0, 0⟩ :=
  ⟨by decide, by decide,
    cgHash_perfect_on_ordered _ _ (by decide) (by decide) (by decide)
      (by decide) rfl⟩

end Smash
